import Mathlib

/-!
# boltdb-server: the three bulk operations of `main.go`

`main.go` exposes three operations over a BoltDB file, `updateDatabase`,
`getFromDatabase` and `deleteFromDatabase`.  Each opens `dbname + ".db"`, runs one
transaction against a named bucket and closes the file again.

The development below embeds those three functions together with the part of the
BoltDB API they call (`bolt.Open`, `db.Update`, `db.View`, `tx.Bucket`,
`tx.CreateBucketIfNotExists`, `b.Put`, `b.Get`, `b.Delete`, the cursor scan), and
proves the storage contract of the operations.

Modelling conventions.

* A Go `string` is a Lean `String`; the conversion `[]byte(s)` is its UTF-8 encoding.
* A Go `map[string]string` is a list of entries; the order of the list is the order
  in which `range` happens to visit the map during the call.  Statements quantify
  over every such list, hence over every iteration order.
* A Go `error` is an `Option String` carrying the text of `err.Error()`; `none` is `nil`.
* The files of the working directory are a finite map from path to file content.
* Buckets hold plain key/value entries (the program never creates nested buckets),
  and a commit of a write transaction that ran without error succeeds.
-/

namespace BoltServer

/-! ## Byte slices -/

/-- The conversion `[]byte(s)`. -/
def bytes (s : String) : List UInt8 := s.toUTF8.data.toList

/-- The test `bytes.Compare(a, b) < 0`, the order in which BoltDB keeps keys. -/
def bytesLess : List UInt8 → List UInt8 → Bool
  | _, [] => false
  | [], _ :: _ => true
  | a :: as, b :: bs =>
    if a.toNat < b.toNat then true else if a.toNat = b.toNat then bytesLess as bs else false

/-! ## Key-ordered finite maps (BoltDB B+tree contents) -/

/-- Entries of a B+tree, held in the order of their keys. -/
abbrev Tree (α : Type) := List (String × α)

/-- Seek the entry stored under `k`. -/
def Tree.get {α : Type} : Tree α → String → Option α
  | [], _ => none
  | (k', v) :: rest, k => if k = k' then some v else Tree.get rest k

/-- Insert `(k, v)` at its place in key order, replacing the entry already stored under `k`. -/
def Tree.put {α : Type} : Tree α → String → α → Tree α
  | [], k, v => [(k, v)]
  | (k', v') :: rest, k, v =>
    if bytesLess (bytes k) (bytes k') then (k, v) :: (k', v') :: rest
    else if k = k' then (k, v) :: rest
    else (k', v') :: Tree.put rest k v

/-- Remove the entry stored under `k`; nothing happens when there is none. -/
def Tree.del {α : Type} : Tree α → String → Tree α
  | [], _ => []
  | (k', v') :: rest, k => if k = k' then Tree.del rest k else (k', v') :: Tree.del rest k

/-! ## Go maps -/

/-- A `map[string]string`; the list order is the order in which `range` visits it. -/
abbrev GoMap := List (String × String)

/-- The keys of a Go map, in iteration order. -/
def GoMap.keys (m : GoMap) : List String := m.map Prod.fst

/-- Go map indexing, `m[k]` with the comma-ok result folded into an option. -/
def GoMap.get : GoMap → String → Option String
  | [], _ => none
  | (k', v) :: rest, k => if k = k' then some v else GoMap.get rest k

/-- Go map assignment, `m[k] = v`. -/
def GoMap.set : GoMap → String → String → GoMap
  | [], k, v => [(k, v)]
  | (k', v') :: rest, k, v =>
    if k = k' then (k', v) :: rest else (k', v') :: GoMap.set rest k v

/-! ## BoltDB -/

/-- A bucket: key/value entries in key order. -/
abbrev Bucket := Tree String

/-- The root of a database (and the working state of a transaction): its buckets by name. -/
abbrev DB := Tree Bucket

/-- Content of a file of the working directory, as `bolt.Open` finds it. -/
inductive File where
  | data (db : DB)
  | invalid (err : String)
  deriving DecidableEq, Repr

/-- The working directory: path to file. -/
abbrev Disk := Tree File

/-- Result of a Go function that may end the process instead of returning: `fatal` is
`log.Fatal`, which logs its argument and exits the process with status 1. -/
inductive Outcome (α : Type) where
  | returned (a : α)
  | fatal (logged : String)
  deriving DecidableEq, Repr

deriving instance DecidableEq for Except

/-- The constant `bolt.MaxKeySize`. -/
def MaxKeySize : Nat := 32768

/-- The constant `bolt.MaxValueSize`, `(1 << 31) - 2`. -/
def MaxValueSize : Nat := (1 <<< 31) - 2

/-- Text of `bolt.ErrBucketNameRequired`. -/
def ErrBucketNameRequired : String := "bucket name required"

/-- Text of `bolt.ErrKeyRequired`. -/
def ErrKeyRequired : String := "key required"

/-- Text of `bolt.ErrKeyTooLarge`. -/
def ErrKeyTooLarge : String := "key too large"

/-- Text of `bolt.ErrValueTooLarge`. -/
def ErrValueTooLarge : String := "value too large"

/-- The call `bolt.Open(path, 0600, nil)`: a missing file is created as an empty database,
a file that cannot be opened as a database yields the error. -/
def Open (disk : Disk) (path : String) : Except String DB :=
  match Tree.get disk path with
  | none => .ok []
  | some (.data db) => .ok db
  | some (.invalid err) => .error err

/-- The file at `path` after the handle has been used and closed with content `db`. -/
def Close (disk : Disk) (path : String) (db : DB) : Disk :=
  Tree.put disk path (.data db)

/-- The call `db.Update(fn)`: `fn` works on the transaction state; its changes are committed
when it returns `nil` and rolled back when it returns an error, which is passed on. -/
def Update (db : DB) (fn : DB → Option String × DB) : Option String × DB :=
  match fn db with
  | (none, tx) => (none, tx)
  | (some e, _) => (some e, db)

/-- The call `db.View(fn)`: `fn` reads a snapshot; its error is passed on.  The second
component is what `fn` left in the variables it captured. -/
def View {α : Type} (db : DB) (fn : DB → Option String × α) : Option String × α :=
  fn db

/-- The call `tx.Bucket(name)`; `none` is the `nil` bucket. -/
def TxBucket (tx : DB) (name : String) : Option Bucket :=
  Tree.get tx name

/-- The call `tx.CreateBucketIfNotExists(name)`: the bucket and the transaction state. -/
def CreateBucketIfNotExists (tx : DB) (name : String) : Except String (Bucket × DB) :=
  if (bytes name).length = 0 then .error ErrBucketNameRequired
  else
    match Tree.get tx name with
    | some b => .ok (b, tx)
    | none => .ok ([], Tree.put tx name [])

/-- The call `b.Put(key, value)`. -/
def Put (b : Bucket) (key value : String) : Except String Bucket :=
  if (bytes key).length = 0 then .error ErrKeyRequired
  else if (bytes key).length > MaxKeySize then .error ErrKeyTooLarge
  else if (bytes value).length > MaxValueSize then .error ErrValueTooLarge
  else .ok (Tree.put b key value)

/-- The call `b.Get(key)`; `none` is the `nil` slice. -/
def Get (b : Bucket) (key : String) : Option String :=
  Tree.get b key

/-- The call `b.Delete(key)`; deleting a key that is not stored is not an error. -/
def Delete (b : Bucket) (key : String) : Except String Bucket :=
  .ok (Tree.del b key)

/-! ## `main.go` -/

/-- The `range keystore` loop of `updateDatabase`.  `some r` in the first component
means the body executed `return r`; `none` means the loop ran to its end.  `err` is the
variable of the enclosing function that the body returns. -/
def updateLoop (err : Option String) : Bucket → GoMap → Option (Option String) × Bucket
  | b, [] => (none, b)
  | b, (key, value) :: rest =>
    match Put b key value with
    | .error _ => (some err, b)
    | .ok b' => updateLoop err b' rest

/-- The closure that `updateDatabase` passes to `db.Update`.  The bucket handle aliases the
bucket inside the transaction, so what the loop did to it is stored under its name. -/
def updateFn (err : Option String) (bucket : String) (keystore : GoMap) (tx : DB) :
    Option String × DB :=
  match CreateBucketIfNotExists tx bucket with
  | .error err2 => (some err2, tx)
  | .ok (b, tx1) =>
    match updateLoop err b keystore with
    | (some r, b') => (r, Tree.put tx1 bucket b')
    | (none, b') => (err, Tree.put tx1 bucket b')

/-- The function `updateDatabase` of `main.go`.  Its variable `err` holds the `nil` of the
successful `bolt.Open` while the closure runs; the result of `db.Update` is assigned to it
only afterwards. -/
def updateDatabase (disk : Disk) (dbname bucket : String) (keystore : GoMap) :
    Outcome (String × Bool) × Disk :=
  match Open disk (dbname ++ ".db") with
  | .error err => (.fatal err, disk)
  | .ok db =>
    let err : Option String := none
    match Update db (updateFn err bucket keystore) with
    | (some e, db') =>
      (.returned ("Error: '" ++ e ++ "'", false), Close disk (dbname ++ ".db") db')
    | (none, db') =>
      (.returned ("Updated " ++ toString keystore.length ++ " keys in " ++ bucket, true),
        Close disk (dbname ++ ".db") db')

/-- The cursor scan of `getFromDatabase`: every entry from `c.First()` on is assigned
into `keystore`. -/
def scanAll (keystore : GoMap) : Bucket → GoMap
  | [] => keystore
  | (k, v) :: rest => scanAll (GoMap.set keystore k v) rest

/-- The `range keys` loop of `getFromDatabase`: keys that `b.Get` finds are assigned into
`keystore`. -/
def getLoop (b : Bucket) (keystore : GoMap) : GoMap → GoMap
  | [] => keystore
  | (key, _) :: rest =>
    match Get b key with
    | some v => getLoop b (GoMap.set keystore key v) rest
    | none => getLoop b keystore rest

/-- The closure of the "Get all keys" branch of `getFromDatabase`.  The debugging
`fmt.Println(b)` only writes to standard output and is left out. -/
def getAllFn (bucket : String) (keystore : GoMap) (tx : DB) : Option String × GoMap :=
  match TxBucket tx bucket with
  | none => (some "Bucket does not exist", keystore)
  | some b => (none, scanAll keystore b)

/-- The closure of the "Get specified keys" branch of `getFromDatabase`. -/
def getKeysFn (bucket : String) (keys keystore : GoMap) (tx : DB) : Option String × GoMap :=
  match TxBucket tx bucket with
  | none => (some "Bucket does not exist", keystore)
  | some b => (none, getLoop b keystore keys)

/-- The function `getFromDatabase` of `main.go`. -/
def getFromDatabase (disk : Disk) (dbname bucket : String) (keys : GoMap) :
    (String × Bool × GoMap) × Disk :=
  let keystore : GoMap := []
  match Open disk (dbname ++ ".db") with
  | .error err => (("Error: '" ++ err ++ "'", false, keystore), disk)
  | .ok db =>
    let r :=
      if keys.length = 0 then View db (getAllFn bucket keystore)
      else View db (getKeysFn bucket keys keystore)
    match r with
    | (some e, keystore') =>
      (("Error: '" ++ e ++ "'", false, keystore'), Close disk (dbname ++ ".db") db)
    | (none, keystore') =>
      (("Got " ++ toString keystore'.length ++ " keys in " ++ bucket, true, keystore'),
        Close disk (dbname ++ ".db") db)

/-- The `range keys` loop of `deleteFromDatabase`; the result of `b.Delete` is dropped. -/
def deleteLoop : Bucket → GoMap → Bucket
  | b, [] => b
  | b, (key, _) :: rest =>
    match Delete b key with
    | .ok b' => deleteLoop b' rest
    | .error _ => deleteLoop b rest

/-- The closure that `deleteFromDatabase` passes to `db.Update`. -/
def deleteFn (err : Option String) (bucket : String) (keys : GoMap) (tx : DB) :
    Option String × DB :=
  match TxBucket tx bucket with
  | none => (some "Bucket does not exist", tx)
  | some b => (err, Tree.put tx bucket (deleteLoop b keys))

/-- The function `deleteFromDatabase` of `main.go`; `err` is as in `updateDatabase`. -/
def deleteFromDatabase (disk : Disk) (dbname bucket : String) (keys : GoMap) :
    (String × Bool) × Disk :=
  match Open disk (dbname ++ ".db") with
  | .error err => (("Error: '" ++ err ++ "'", false), disk)
  | .ok db =>
    let err : Option String := none
    match Update db (deleteFn err bucket keys) with
    | (some e, db') => (("Error: '" ++ e ++ "'", false), Close disk (dbname ++ ".db") db')
    | (none, db') =>
      (("Deleted " ++ toString keys.length ++ " keys in " ++ bucket, true),
        Close disk (dbname ++ ".db") db')

/-- The entries that `b.Put` accepts: a non-empty key of at most `MaxKeySize` bytes and a
value of at most `MaxValueSize` bytes. -/
def Accepted (e : String × String) : Prop :=
  0 < (bytes e.1).length ∧ (bytes e.1).length ≤ MaxKeySize ∧ (bytes e.2).length ≤ MaxValueSize

instance (e : String × String) : Decidable (Accepted e) := by
  unfold Accepted; infer_instance

/-- A value one byte longer than `MaxValueSize`: `MaxValueSize + 1` times the letter a. -/
def oversizeValue : String := ⟨List.replicate (MaxValueSize + 1) 'a'⟩

/-! ## Closed forms of the loops, used to state the lemmas -/

/-- The bucket after `b.Put` has stored every entry of `m`, in iteration order. -/
def putAll (b : Bucket) (m : GoMap) : Bucket :=
  m.foldl (fun acc e => Tree.put acc e.1 e.2) b

/-- The database that `updateDatabase` commits when every `b.Put` succeeds. -/
def written (db : DB) (bucket : String) (m : GoMap) : DB :=
  match Tree.get db bucket with
  | some b => Tree.put db bucket (putAll b m)
  | none => Tree.put (Tree.put db bucket []) bucket (putAll [] m)

/-- The entries that the `range keys` loop of `getFromDatabase` finds in bucket `b`. -/
def selected (b : Bucket) (keys : GoMap) : GoMap :=
  keys.filterMap (fun e => (Get b e.1).map (fun v => (e.1, v)))

/-! ## Lemmas on the containers -/

theorem bytes_length (s : String) : (bytes s).length = s.utf8ByteSize := by
  rw [← String.size_toUTF8]; rfl

theorem utf8ByteSize_go_pos (c : Char) (cs : List Char) :
    0 < String.utf8ByteSize.go (c :: cs) := by
  have h := Char.utf8Size_pos c
  simp only [String.utf8ByteSize.go]
  omega

theorem bytes_length_eq_zero (s : String) : (bytes s).length = 0 ↔ s = "" := by
  rw [bytes_length]
  constructor
  · intro h
    cases s with
    | mk l =>
      cases l with
      | nil => rfl
      | cons c cs =>
        have hpos := utf8ByteSize_go_pos c cs
        simp only [String.utf8ByteSize] at h
        omega
  · intro h
    subst h
    rfl

theorem Tree.get_put_same {α : Type} (t : Tree α) (k : String) (v : α) :
    Tree.get (Tree.put t k v) k = some v := by
  induction t with
  | nil => simp [Tree.put, Tree.get]
  | cons hd rest ih =>
    obtain ⟨k', v'⟩ := hd
    simp only [Tree.put]
    split
    · simp [Tree.get]
    · split
      · simp [Tree.get]
      · rename_i _ hne
        simp [Tree.get, hne, ih]

theorem Tree.get_put_ne {α : Type} (t : Tree α) {j k : String} (h : j ≠ k) (v : α) :
    Tree.get (Tree.put t k v) j = Tree.get t j := by
  induction t with
  | nil => simp [Tree.put, Tree.get, h]
  | cons hd rest ih =>
    obtain ⟨k', v'⟩ := hd
    simp only [Tree.put]
    split
    · simp [Tree.get, h]
    · split
      · rename_i _ heq
        subst heq
        simp [Tree.get, h]
      · simp [Tree.get, ih]

theorem Tree.get_del_same {α : Type} (t : Tree α) (k : String) :
    Tree.get (Tree.del t k) k = none := by
  induction t with
  | nil => simp [Tree.del, Tree.get]
  | cons hd rest ih =>
    obtain ⟨k', v'⟩ := hd
    simp only [Tree.del]
    split
    · exact ih
    · rename_i hne
      simp [Tree.get, hne, ih]

theorem Tree.get_del_ne {α : Type} (t : Tree α) {j k : String} (h : j ≠ k) :
    Tree.get (Tree.del t k) j = Tree.get t j := by
  induction t with
  | nil => simp [Tree.del, Tree.get]
  | cons hd rest ih =>
    obtain ⟨k', v'⟩ := hd
    simp only [Tree.del]
    split
    · rename_i heq
      subst heq
      simp [Tree.get, h, ih]
    · simp [Tree.get, ih]

theorem Tree.del_comm {α : Type} (t : Tree α) (j k : String) :
    Tree.del (Tree.del t j) k = Tree.del (Tree.del t k) j := by
  induction t with
  | nil => rfl
  | cons hd rest ih =>
    obtain ⟨k', v'⟩ := hd
    by_cases h1 : j = k'
    · by_cases h2 : k = k'
      · simp only [Tree.del, h1, h2, if_true]
      · simp only [Tree.del, h1, h2, if_true, if_false]
        rw [← h1]; exact ih
    · by_cases h2 : k = k'
      · simp only [Tree.del, h1, h2, if_true, if_false]
        rw [← h2]; exact ih
      · simp only [Tree.del, h1, h2, if_false]
        rw [ih]

theorem Open_Close (disk : Disk) (path : String) (db : DB) :
    Open (Close disk path db) path = .ok db := by
  simp [Open, Close, Tree.get_put_same]

theorem GoMap.get_eq_none_of_not_mem (m : GoMap) (k : String) (h : k ∉ GoMap.keys m) :
    GoMap.get m k = none := by
  induction m with
  | nil => simp [GoMap.get]
  | cons hd rest ih =>
    obtain ⟨k', v'⟩ := hd
    simp only [GoMap.keys, List.map_cons, List.mem_cons, not_or] at h
    simp only [GoMap.get, h.1, if_false]
    exact ih h.2

theorem GoMap.get_isSome_of_mem (m : GoMap) (k : String) (h : k ∈ GoMap.keys m) :
    ∃ v, GoMap.get m k = some v := by
  induction m with
  | nil => simp [GoMap.keys] at h
  | cons hd rest ih =>
    obtain ⟨k', v'⟩ := hd
    simp only [GoMap.keys, List.map_cons, List.mem_cons] at h
    by_cases hk : k = k'
    · exact ⟨v', by simp [GoMap.get, hk]⟩
    · rcases h with h | h
      · exact absurd h hk
      · obtain ⟨v, hv⟩ := ih h
        exact ⟨v, by simp [GoMap.get, hk, hv]⟩

/-! ## Lemmas on the loops -/

theorem Put_of_accepted (b : Bucket) (k v : String) (h : Accepted (k, v)) :
    Put b k v = .ok (Tree.put b k v) := by
  obtain ⟨h1, h2, h3⟩ := h
  dsimp only at h1 h2 h3
  simp only [Put]
  rw [if_neg (by omega), if_neg (by omega), if_neg (by omega)]

theorem updateLoop_of_accepted (err : Option String) (m : GoMap) (b : Bucket)
    (h : ∀ e ∈ m, Accepted e) : updateLoop err b m = (none, putAll b m) := by
  induction m generalizing b with
  | nil => rfl
  | cons hd rest ih =>
    obtain ⟨k, v⟩ := hd
    have hhd : Accepted (k, v) := h (k, v) (List.mem_cons_self _ _)
    simp only [updateLoop, Put_of_accepted b k v hhd]
    rw [ih (Tree.put b k v) (fun e he => h e (List.mem_cons_of_mem _ he))]
    rfl

theorem get_putAll_of_get_none (m : GoMap) (b : Bucket) (k : String)
    (h : GoMap.get m k = none) : Tree.get (putAll b m) k = Tree.get b k := by
  induction m generalizing b with
  | nil => rfl
  | cons hd rest ih =>
    obtain ⟨k', v'⟩ := hd
    simp only [GoMap.get] at h
    split at h
    · exact absurd h (by simp)
    · rename_i hne
      show Tree.get (putAll (Tree.put b k' v') rest) k = Tree.get b k
      rw [ih (Tree.put b k' v') h, Tree.get_put_ne b hne]

theorem get_putAll_of_get_some (m : GoMap) (b : Bucket) (k v : String)
    (hnodup : (GoMap.keys m).Nodup) (h : GoMap.get m k = some v) :
    Tree.get (putAll b m) k = some v := by
  induction m generalizing b with
  | nil => simp [GoMap.get] at h
  | cons hd rest ih =>
    obtain ⟨k', v'⟩ := hd
    simp only [GoMap.keys, List.map_cons, List.nodup_cons] at hnodup
    simp only [GoMap.get] at h
    show Tree.get (putAll (Tree.put b k' v') rest) k = some v
    split at h
    · rename_i heq
      subst heq
      have hv : v' = v := by simpa using h
      subst hv
      rw [get_putAll_of_get_none rest _ k (GoMap.get_eq_none_of_not_mem rest k hnodup.1),
        Tree.get_put_same]
    · exact ih (Tree.put b k' v') hnodup.2 h

theorem deleteLoop_cons (b : Bucket) (key value : String) (rest : GoMap) :
    deleteLoop b ((key, value) :: rest) = deleteLoop (Tree.del b key) rest := rfl

theorem get_deleteLoop_of_mem (keys : GoMap) (b : Bucket) (k : String)
    (h : k ∈ GoMap.keys keys) : Tree.get (deleteLoop b keys) k = none := by
  induction keys generalizing b with
  | nil => simp [GoMap.keys] at h
  | cons hd rest ih =>
    obtain ⟨k', v'⟩ := hd
    rw [deleteLoop_cons]
    simp only [GoMap.keys, List.map_cons, List.mem_cons] at h
    by_cases hmem : k ∈ GoMap.keys rest
    · exact ih _ hmem
    · have hk : k = k' := by
        rcases h with h | h
        · exact h
        · exact absurd h hmem
      subst hk
      clear ih h
      induction rest generalizing b with
      | nil => exact Tree.get_del_same b k
      | cons hd2 rest2 ih2 =>
        obtain ⟨k2, v2⟩ := hd2
        simp only [GoMap.keys, List.map_cons, List.mem_cons, not_or] at hmem
        rw [deleteLoop_cons]
        rw [Tree.del_comm b k k2]
        exact ih2 _ hmem.2

theorem get_deleteLoop_of_not_mem (keys : GoMap) (b : Bucket) (k : String)
    (h : k ∉ GoMap.keys keys) : Tree.get (deleteLoop b keys) k = Tree.get b k := by
  induction keys generalizing b with
  | nil => rfl
  | cons hd rest ih =>
    obtain ⟨k', v'⟩ := hd
    simp only [GoMap.keys, List.map_cons, List.mem_cons, not_or] at h
    rw [deleteLoop_cons, ih _ h.2, Tree.get_del_ne b h.1]

theorem utf8ByteSize_go_replicate (n : Nat) :
    String.utf8ByteSize.go (List.replicate n 'a') = n := by
  induction n with
  | zero => rfl
  | succ n ih =>
    have ha : Char.utf8Size 'a' = 1 := by decide
    simp only [List.replicate_succ, String.utf8ByteSize.go, ih, ha]

theorem bytes_length_oversizeValue : (bytes oversizeValue).length = MaxValueSize + 1 := by
  rw [bytes_length]
  exact utf8ByteSize_go_replicate (MaxValueSize + 1)

theorem Put_of_value_too_large (b : Bucket) (k v : String) (h1 : 0 < (bytes k).length)
    (h2 : (bytes k).length ≤ MaxKeySize) (h3 : (bytes v).length > MaxValueSize) :
    Put b k v = .error ErrValueTooLarge := by
  simp only [Put]
  rw [if_neg (by omega), if_neg (by omega), if_pos h3]

/-! ## The operations on a database that opens -/

theorem CreateBucketIfNotExists_of_ne (tx : DB) (name : String) (h : name ≠ "") :
    CreateBucketIfNotExists tx name =
      match Tree.get tx name with
      | some b => .ok (b, tx)
      | none => .ok ([], Tree.put tx name []) := by
  have hlen : ¬ (bytes name).length = 0 := fun h0 => h ((bytes_length_eq_zero name).1 h0)
  simp only [CreateBucketIfNotExists, if_neg hlen]

theorem updateDatabase_of_accepted (disk : Disk) (dbname bucket : String) (m : GoMap) (db : DB)
    (hopen : Open disk (dbname ++ ".db") = .ok db) (hname : bucket ≠ "")
    (hacc : ∀ e ∈ m, Accepted e) :
    updateDatabase disk dbname bucket m =
      (.returned ("Updated " ++ toString m.length ++ " keys in " ++ bucket, true),
        Close disk (dbname ++ ".db") (written db bucket m)) := by
  simp only [updateDatabase, hopen, Update, updateFn, CreateBucketIfNotExists_of_ne db bucket hname,
    written]
  cases hb : Tree.get db bucket with
  | none => simp only [updateLoop_of_accepted none m [] hacc]
  | some b => simp only [updateLoop_of_accepted none m b hacc]

theorem updateDatabase_of_value_too_large (disk : Disk) (dbname bucket k v : String) (db : DB)
    (b : Bucket) (hopen : Open disk (dbname ++ ".db") = .ok db)
    (hb : Tree.get db bucket = some b) (hname : bucket ≠ "")
    (h1 : 0 < (bytes k).length) (h2 : (bytes k).length ≤ MaxKeySize)
    (h3 : (bytes v).length > MaxValueSize) :
    updateDatabase disk dbname bucket [(k, v)] =
      (.returned ("Updated " ++ toString (1 : Nat) ++ " keys in " ++ bucket, true),
        Close disk (dbname ++ ".db") (Tree.put db bucket b)) := by
  simp only [updateDatabase, hopen, Update, updateFn,
    CreateBucketIfNotExists_of_ne db bucket hname, hb, updateLoop,
    Put_of_value_too_large b k v h1 h2 h3, List.length_cons, List.length_nil, Nat.zero_add]

theorem deleteFromDatabase_of_bucket (disk : Disk) (dbname bucket : String) (keys : GoMap)
    (db : DB) (b : Bucket) (hopen : Open disk (dbname ++ ".db") = .ok db)
    (hb : Tree.get db bucket = some b) :
    deleteFromDatabase disk dbname bucket keys =
      (("Deleted " ++ toString keys.length ++ " keys in " ++ bucket, true),
        Close disk (dbname ++ ".db") (Tree.put db bucket (deleteLoop b keys))) := by
  simp only [deleteFromDatabase, hopen, Update, deleteFn, TxBucket, hb]

theorem deleteFromDatabase_of_no_bucket (disk : Disk) (dbname bucket : String) (keys : GoMap)
    (db : DB) (hopen : Open disk (dbname ++ ".db") = .ok db)
    (hb : Tree.get db bucket = none) :
    deleteFromDatabase disk dbname bucket keys =
      (("Error: 'Bucket does not exist'", false), Close disk (dbname ++ ".db") db) := by
  simp only [deleteFromDatabase, hopen, Update, deleteFn, TxBucket, hb]
  rfl

theorem getFromDatabase_of_no_bucket (disk : Disk) (dbname bucket : String) (keys : GoMap)
    (db : DB) (hopen : Open disk (dbname ++ ".db") = .ok db)
    (hb : Tree.get db bucket = none) :
    getFromDatabase disk dbname bucket keys =
      (("Error: 'Bucket does not exist'", false, []), Close disk (dbname ++ ".db") db) := by
  simp only [getFromDatabase, hopen, View, getAllFn, getKeysFn, TxBucket, hb, ite_self]
  rfl

theorem getFromDatabase_all (disk : Disk) (dbname bucket : String)
    (db : DB) (b : Bucket) (hopen : Open disk (dbname ++ ".db") = .ok db)
    (hb : Tree.get db bucket = some b) :
    getFromDatabase disk dbname bucket [] =
      (("Got " ++ toString (scanAll [] b).length ++ " keys in " ++ bucket, true, scanAll [] b),
        Close disk (dbname ++ ".db") db) := by
  simp only [getFromDatabase, hopen, View, getAllFn, TxBucket, hb, List.length_nil, if_true]

theorem getFromDatabase_keys (disk : Disk) (dbname bucket : String) (keys : GoMap)
    (db : DB) (b : Bucket) (hopen : Open disk (dbname ++ ".db") = .ok db)
    (hb : Tree.get db bucket = some b) (hkeys : keys ≠ []) :
    getFromDatabase disk dbname bucket keys =
      (("Got " ++ toString (getLoop b [] keys).length ++ " keys in " ++ bucket, true,
          getLoop b [] keys),
        Close disk (dbname ++ ".db") db) := by
  have hlen : ¬ keys.length = 0 := fun h => hkeys (List.length_eq_zero.1 h)
  simp only [getFromDatabase, hopen, View, getKeysFn, TxBucket, hb, if_neg hlen]

theorem get_written_same (db : DB) (bucket : String) (m : GoMap) :
    Tree.get (written db bucket m) bucket
      = some (putAll ((Tree.get db bucket).getD []) m) := by
  unfold written
  cases hb : Tree.get db bucket with
  | none => simp only [Tree.get_put_same, Option.getD_none]
  | some b => simp only [Tree.get_put_same, Option.getD_some]

theorem get_written_ne (db : DB) (bucket : String) (m : GoMap) {other : String}
    (h : other ≠ bucket) : Tree.get (written db bucket m) other = Tree.get db other := by
  unfold written
  cases hb : Tree.get db bucket with
  | none => simp only [Tree.get_put_ne _ h]
  | some b => simp only [Tree.get_put_ne _ h]

theorem Tree.del_eq_filter {α : Type} (t : Tree α) (k : String) :
    Tree.del t k = t.filter (fun e => decide (e.1 ≠ k)) := by
  induction t with
  | nil => rfl
  | cons hd rest ih =>
    obtain ⟨k', v'⟩ := hd
    by_cases h : k = k'
    · subst h
      simp [Tree.del, ih]
    · have h2 : k' ≠ k := fun e => h e.symm
      simp [Tree.del, h, h2, ih]

theorem deleteLoop_eq_filter (keys : GoMap) (b : Bucket) :
    deleteLoop b keys = b.filter (fun e => decide (e.1 ∉ GoMap.keys keys)) := by
  induction keys generalizing b with
  | nil => simp [deleteLoop, GoMap.keys]
  | cons hd rest ih =>
    obtain ⟨k', v'⟩ := hd
    rw [deleteLoop_cons, ih, Tree.del_eq_filter, List.filter_filter]
    apply List.filter_congr
    intro e _
    simp only [GoMap.keys, List.map_cons, List.mem_cons, not_or, ne_eq, Bool.decide_and]
    rw [Bool.and_comm]

theorem GoMap.get_eq_tree_get (m : GoMap) (k : String) : GoMap.get m k = Tree.get m k := by
  induction m with
  | nil => rfl
  | cons hd rest ih =>
    obtain ⟨k', v'⟩ := hd
    simp only [GoMap.get, Tree.get, ih]

theorem GoMap.set_of_not_mem (m : GoMap) (k v : String) (h : k ∉ GoMap.keys m) :
    GoMap.set m k v = m ++ [(k, v)] := by
  induction m with
  | nil => rfl
  | cons hd rest ih =>
    obtain ⟨k', v'⟩ := hd
    simp only [GoMap.keys, List.map_cons, List.mem_cons, not_or] at h
    simp only [GoMap.set, h.1, if_false, List.cons_append]
    rw [ih h.2]

theorem GoMap.keys_append (m n : GoMap) : GoMap.keys (m ++ n) = GoMap.keys m ++ GoMap.keys n := by
  simp [GoMap.keys]

theorem scanAll_of_disjoint (t : Bucket) (acc : GoMap) (hnodup : (GoMap.keys t).Nodup)
    (hdisj : ∀ k, k ∈ GoMap.keys t → k ∉ GoMap.keys acc) : scanAll acc t = acc ++ t := by
  induction t generalizing acc with
  | nil => simp [scanAll]
  | cons hd rest ih =>
    obtain ⟨k, v⟩ := hd
    simp only [GoMap.keys, List.map_cons, List.nodup_cons] at hnodup
    have hk : k ∉ GoMap.keys acc := hdisj k (by simp [GoMap.keys])
    simp only [scanAll]
    rw [GoMap.set_of_not_mem acc k v hk, ih (acc ++ [(k, v)]) hnodup.2]
    · simp
    · intro j hj
      rw [GoMap.keys_append]
      simp only [List.mem_append, not_or]
      refine ⟨hdisj j (by simp only [GoMap.keys, List.map_cons, List.mem_cons]; exact Or.inr hj), ?_⟩
      simp only [GoMap.keys, List.map_cons, List.map_nil, List.mem_singleton]
      intro hjk
      subst hjk
      exact hnodup.1 hj

theorem Tree.put_perm {α : Type} (t : Tree α) (k : String) (v : α) (h : Tree.get t k = none) :
    (Tree.put t k v).Perm ((k, v) :: t) := by
  induction t with
  | nil => exact List.Perm.refl _
  | cons hd rest ih =>
    obtain ⟨k', v'⟩ := hd
    simp only [Tree.get] at h
    split at h
    · exact absurd h (by simp)
    · rename_i hne
      simp only [Tree.put, hne, if_false]
      split
      · exact List.Perm.refl _
      · exact ((ih h).cons (k', v')).trans (List.Perm.swap _ _ _)

theorem putAll_perm (m : GoMap) (b : Bucket) (hnodup : (GoMap.keys m).Nodup)
    (hfree : ∀ e ∈ m, Tree.get b e.1 = none) : (putAll b m).Perm (m ++ b) := by
  induction m generalizing b with
  | nil => exact List.Perm.refl _
  | cons hd rest ih =>
    obtain ⟨k, v⟩ := hd
    simp only [GoMap.keys, List.map_cons, List.nodup_cons] at hnodup
    have hk : Tree.get b k = none := hfree (k, v) (List.mem_cons_self _ _)
    have hrest : ∀ e ∈ rest, Tree.get (Tree.put b k v) e.1 = none := by
      intro e he
      have hne : e.1 ≠ k := by
        intro heq
        apply hnodup.1
        rw [← heq]
        exact List.mem_map_of_mem Prod.fst he
      rw [Tree.get_put_ne b hne]
      exact hfree e (List.mem_cons_of_mem _ he)
    show (putAll (Tree.put b k v) rest).Perm ((k, v) :: (rest ++ b))
    refine (ih (Tree.put b k v) hnodup.2 hrest).trans ?_
    refine (List.Perm.append_left rest (Tree.put_perm b k v hk)).trans ?_
    exact List.perm_middle

theorem selected_cons (b : Bucket) (key value : String) (rest : GoMap) :
    selected b ((key, value) :: rest) =
      match Get b key with
      | some v => (key, v) :: selected b rest
      | none => selected b rest := by
  simp only [selected, List.filterMap_cons]
  cases Get b key <;> rfl

theorem mem_keys_selected (b : Bucket) (keys : GoMap) (k : String)
    (h : k ∈ GoMap.keys (selected b keys)) : k ∈ GoMap.keys keys := by
  induction keys with
  | nil => simp [selected, GoMap.keys] at h
  | cons hd rest ih =>
    obtain ⟨k', v'⟩ := hd
    rw [selected_cons] at h
    simp only [GoMap.keys, List.map_cons, List.mem_cons]
    cases hg : Get b k' with
    | none =>
      rw [hg] at h
      exact Or.inr (ih h)
    | some v =>
      rw [hg] at h
      simp only [GoMap.keys, List.map_cons, List.mem_cons] at h
      rcases h with h | h
      · exact Or.inl h
      · exact Or.inr (ih h)

theorem nodup_keys_selected (b : Bucket) (keys : GoMap) (hnodup : (GoMap.keys keys).Nodup) :
    (GoMap.keys (selected b keys)).Nodup := by
  induction keys with
  | nil => simp [selected, GoMap.keys]
  | cons hd rest ih =>
    obtain ⟨k', v'⟩ := hd
    simp only [GoMap.keys, List.map_cons, List.nodup_cons] at hnodup
    rw [selected_cons]
    cases hg : Get b k' with
    | none => exact ih hnodup.2
    | some v =>
      simp only [GoMap.keys, List.map_cons, List.nodup_cons]
      exact ⟨fun hmem => hnodup.1 (mem_keys_selected b rest k' hmem), ih hnodup.2⟩

theorem get_selected_of_mem (b : Bucket) (keys : GoMap) (k : String)
    (h : k ∈ GoMap.keys keys) : GoMap.get (selected b keys) k = Tree.get b k := by
  induction keys with
  | nil => simp [GoMap.keys] at h
  | cons hd rest ih =>
    obtain ⟨k', v'⟩ := hd
    simp only [GoMap.keys, List.map_cons, List.mem_cons] at h
    rw [selected_cons]
    by_cases hk : k = k'
    · subst hk
      cases hg : Get b k with
      | some v =>
        simp only [GoMap.get, if_true]
        exact hg.symm
      | none =>
        have hg2 : Tree.get b k = none := hg
        simp only []
        by_cases hmem : k ∈ GoMap.keys rest
        · rw [ih hmem]
        · rw [hg2]
          apply GoMap.get_eq_none_of_not_mem
          exact fun hm => hmem (mem_keys_selected b rest k hm)
    · have hmem : k ∈ GoMap.keys rest := by
        rcases h with h | h
        · exact absurd h hk
        · exact h
      cases hg : Get b k' with
      | some v =>
        simp only [GoMap.get, hk, if_false]
        exact ih hmem
      | none => exact ih hmem

theorem getLoop_eq_selected (b : Bucket) (keys acc : GoMap) (hnodup : (GoMap.keys keys).Nodup)
    (hdisj : ∀ k, k ∈ GoMap.keys keys → k ∉ GoMap.keys acc) :
    getLoop b acc keys = acc ++ selected b keys := by
  induction keys generalizing acc with
  | nil => simp [getLoop, selected]
  | cons hd rest ih =>
    obtain ⟨k, v⟩ := hd
    simp only [GoMap.keys, List.map_cons, List.nodup_cons] at hnodup
    have hk : k ∉ GoMap.keys acc := hdisj k (by simp [GoMap.keys])
    have hrest : ∀ j, j ∈ GoMap.keys rest → j ∉ GoMap.keys acc := fun j hj =>
      hdisj j (by simp only [GoMap.keys, List.map_cons, List.mem_cons]; exact Or.inr hj)
    rw [selected_cons]
    simp only [getLoop]
    cases hg : Get b k with
    | none => exact ih acc hnodup.2 hrest
    | some w =>
      simp only []
      rw [GoMap.set_of_not_mem acc k w hk, ih (acc ++ [(k, w)]) hnodup.2]
      · simp
      · intro j hj
        rw [GoMap.keys_append]
        simp only [List.mem_append, not_or]
        refine ⟨hrest j hj, ?_⟩
        simp only [GoMap.keys, List.map_cons, List.map_nil, List.mem_singleton]
        intro hjk
        subst hjk
        exact hnodup.1 hj

theorem getLoop_of_all_none (b : Bucket) (keys acc : GoMap)
    (h : ∀ k, k ∈ GoMap.keys keys → Tree.get b k = none) : getLoop b acc keys = acc := by
  induction keys generalizing acc with
  | nil => rfl
  | cons hd rest ih =>
    obtain ⟨k, v⟩ := hd
    have hk : Get b k = none := h k (by simp [GoMap.keys])
    simp only [getLoop, hk]
    exact ih acc (fun j hj =>
      h j (by simp only [GoMap.keys, List.map_cons, List.mem_cons]; exact Or.inr hj))

/-! ## The storage contract -/

/-- C4: when the database opens and the named bucket does not exist, `getFromDatabase`
returns the message "Error: 'Bucket does not exist'", success false and an empty
mapping, whatever the key filter (empty or not); in particular it does not return success. -/
theorem getFromDatabase_missing_bucket (disk : Disk) (dbname bucket : String) (keys : GoMap)
    (db : DB) (hopen : Open disk (dbname ++ ".db") = .ok db)
    (hb : Tree.get db bucket = none) :
    (getFromDatabase disk dbname bucket keys).1 = ("Error: 'Bucket does not exist'", false, []) ∧
      (getFromDatabase disk dbname bucket keys).1.2.1 ≠ true := by
  rw [getFromDatabase_of_no_bucket disk dbname bucket keys db hopen hb]
  exact ⟨rfl, by simp⟩

theorem getFromDatabase_missing_bucket_witness :
    Open [("shop.db", .data [("food", [("apple", "red")])])] ("shop" ++ ".db")
        = .ok [("food", [("apple", "red")])] ∧
      Tree.get ([("food", [("apple", "red")])] : DB) "ghost" = none ∧
      (getFromDatabase [("shop.db", .data [("food", [("apple", "red")])])] "shop" "ghost"
          [("apple", "")]).1 = ("Error: 'Bucket does not exist'", false, []) :=
  ⟨by decide, by decide,
    (getFromDatabase_missing_bucket [("shop.db", .data [("food", [("apple", "red")])])] "shop"
      "ghost" [("apple", "")] [("food", [("apple", "red")])] (by decide) (by decide)).1⟩

/-- C6: when the database opens and the named bucket does not exist, `deleteFromDatabase`
returns the message "Error: 'Bucket does not exist'" with success false, the database
holds afterwards what it held before, the bucket has not been created, and a following
read of the bucket (with any key filter) fails in the same way. -/
theorem deleteFromDatabase_missing_bucket (disk : Disk) (dbname bucket : String) (keys : GoMap)
    (db : DB) (hopen : Open disk (dbname ++ ".db") = .ok db)
    (hb : Tree.get db bucket = none) :
    (deleteFromDatabase disk dbname bucket keys).1 = ("Error: 'Bucket does not exist'", false) ∧
      Open (deleteFromDatabase disk dbname bucket keys).2 (dbname ++ ".db") = .ok db ∧
      ∀ keys2 : GoMap,
        (getFromDatabase (deleteFromDatabase disk dbname bucket keys).2 dbname bucket keys2).1
          = ("Error: 'Bucket does not exist'", false, []) := by
  rw [deleteFromDatabase_of_no_bucket disk dbname bucket keys db hopen hb]
  refine ⟨rfl, Open_Close _ _ _, fun keys2 => ?_⟩
  rw [getFromDatabase_of_no_bucket _ dbname bucket keys2 db (Open_Close _ _ _) hb]

theorem deleteFromDatabase_missing_bucket_witness :
    Open [("shop.db", .data [("food", [("apple", "red")])])] ("shop" ++ ".db")
        = .ok [("food", [("apple", "red")])] ∧
      Tree.get ([("food", [("apple", "red")])] : DB) "ghost" = none ∧
      (deleteFromDatabase [("shop.db", .data [("food", [("apple", "red")])])] "shop" "ghost"
          [("apple", "")]).1 = ("Error: 'Bucket does not exist'", false) :=
  ⟨by decide, by decide,
    (deleteFromDatabase_missing_bucket [("shop.db", .data [("food", [("apple", "red")])])] "shop"
      "ghost" [("apple", "")] [("food", [("apple", "red")])] (by decide) (by decide)).1⟩

/-- C7: when the database opens and bucket B exists, `deleteFromDatabase` returns success
true and the message "Deleted n keys in B" with n the number of keys of the request,
whichever of those keys B held. -/
theorem deleteFromDatabase_reports_requested (disk : Disk) (dbname bucket : String)
    (keys : GoMap) (db : DB) (b : Bucket) (hopen : Open disk (dbname ++ ".db") = .ok db)
    (hb : Tree.get db bucket = some b) :
    (deleteFromDatabase disk dbname bucket keys).1
      = ("Deleted " ++ toString keys.length ++ " keys in " ++ bucket, true) := by
  rw [deleteFromDatabase_of_bucket disk dbname bucket keys db b hopen hb]

theorem deleteFromDatabase_reports_requested_witness :
    Open [("shop.db", .data [("food", [("apple", "red")])])] ("shop" ++ ".db")
        = .ok [("food", [("apple", "red")])] ∧
      Tree.get ([("food", [("apple", "red")])] : DB) "food" = some [("apple", "red")] ∧
      (deleteFromDatabase [("shop.db", .data [("food", [("apple", "red")])])] "shop" "food"
          [("kiwi", ""), ("plum", "")]).1 = ("Deleted 2 keys in food", true) :=
  ⟨by decide, by decide,
    deleteFromDatabase_reports_requested [("shop.db", .data [("food", [("apple", "red")])])]
      "shop" "food" [("kiwi", ""), ("plum", "")] [("food", [("apple", "red")])]
      [("apple", "red")] (by decide) (by decide)⟩

/-- C9, as written, fails: bucket "food" holds pear=green and the batch is the single
entry under the key "k", which the store accepts, with a value of `MaxValueSize + 1`
bytes.  `b.Put` rejects the value; `updateDatabase` returns success true with
"Updated 1 keys in food", and afterwards the bucket is as it was and holds nothing under
"k", not the value of the batch. -/
theorem updateDatabase_upsert_counterexample :
    0 < (bytes "k").length ∧ (bytes "k").length ≤ MaxKeySize ∧
      GoMap.get [("k", oversizeValue)] "k" = some oversizeValue ∧
      updateDatabase [("shop.db", .data [("food", [("pear", "green")])])] "shop" "food"
          [("k", oversizeValue)]
        = (.returned ("Updated 1 keys in food", true),
            [("shop.db", .data [("food", [("pear", "green")])])]) ∧
      Tree.get ([("pear", "green")] : Bucket) "k" = none := by
  have hlarge : (bytes oversizeValue).length > MaxValueSize := by
    rw [bytes_length_oversizeValue]
    exact Nat.lt_succ_self _
  refine ⟨by decide, by decide, ?_, ?_, by decide⟩
  · simp only [GoMap.get, if_true]
  · rw [updateDatabase_of_value_too_large
      [("shop.db", .data [("food", [("pear", "green")])])] "shop" "food" "k" oversizeValue
      [("food", [("pear", "green")])] [("pear", "green")]
      (by decide) (by decide) (by decide) (by decide) (by decide) hlarge]
    decide

/-- C9, amended: when the database opens, the bucket name is not empty and `b.Put` accepts
every entry of the batch M, key and value (a key that is not empty and of at most
`MaxKeySize` bytes, a value of at most `MaxValueSize` bytes), `updateDatabase` returns
success true with the message "Updated n keys in B", n the number of entries of M;
afterwards bucket B exists and holds, under each key, the value of M when M has the key
and otherwise what B held before (nothing when B did not exist or did not hold the key);
every other bucket is as before. -/
theorem updateDatabase_upsert (disk : Disk) (dbname bucket : String) (m : GoMap) (db : DB)
    (hopen : Open disk (dbname ++ ".db") = .ok db) (hname : bucket ≠ "")
    (hnodup : (GoMap.keys m).Nodup) (hacc : ∀ e ∈ m, Accepted e) :
    (updateDatabase disk dbname bucket m).1
        = .returned ("Updated " ++ toString m.length ++ " keys in " ++ bucket, true) ∧
      ∃ db2 b2, Open (updateDatabase disk dbname bucket m).2 (dbname ++ ".db") = .ok db2 ∧
        Tree.get db2 bucket = some b2 ∧
        (∀ k v, GoMap.get m k = some v → Tree.get b2 k = some v) ∧
        (∀ k, GoMap.get m k = none →
          Tree.get b2 k = Tree.get ((Tree.get db bucket).getD []) k) ∧
        (∀ other, other ≠ bucket → Tree.get db2 other = Tree.get db other) := by
  rw [updateDatabase_of_accepted disk dbname bucket m db hopen hname hacc]
  refine ⟨rfl, written db bucket m, putAll ((Tree.get db bucket).getD []) m,
    Open_Close _ _ _, get_written_same db bucket m, ?_, ?_, ?_⟩
  · intro k v hk
    exact get_putAll_of_get_some m _ k v hnodup hk
  · intro k hk
    exact get_putAll_of_get_none m _ k hk
  · intro other hother
    exact get_written_ne db bucket m hother

theorem updateDatabase_upsert_witness :
    Open [("shop.db", .data [("food", [("apple", "green"), ("kiwi", "brown")])])]
        ("shop" ++ ".db") = .ok [("food", [("apple", "green"), ("kiwi", "brown")])] ∧
      "food" ≠ "" ∧
      (GoMap.keys [("pear", "green"), ("apple", "red")]).Nodup ∧
      (∀ e ∈ ([("pear", "green"), ("apple", "red")] : GoMap), Accepted e) ∧
      (updateDatabase [("shop.db", .data [("food", [("apple", "green"), ("kiwi", "brown")])])]
          "shop" "food" [("pear", "green"), ("apple", "red")]).1
        = .returned ("Updated 2 keys in food", true) :=
  ⟨by decide, by decide, by decide, by decide,
    (updateDatabase_upsert [("shop.db", .data [("food", [("apple", "green"), ("kiwi", "brown")])])]
      "shop" "food" [("pear", "green"), ("apple", "red")]
      [("food", [("apple", "green"), ("kiwi", "brown")])]
      (by decide) (by decide) (by decide) (by decide)).1⟩

/-- C10: when the database opens and bucket B exists, after `deleteFromDatabase` with key
set K bucket B still exists; it holds no key of K and, under every key outside K, the
value it held before; every other bucket is as before; and a read of all of B succeeds,
with an empty mapping when every key that B held was in K. -/
theorem deleteFromDatabase_frame (disk : Disk) (dbname bucket : String) (keys : GoMap)
    (db : DB) (b : Bucket) (hopen : Open disk (dbname ++ ".db") = .ok db)
    (hb : Tree.get db bucket = some b) :
    ∃ db2 b2, Open (deleteFromDatabase disk dbname bucket keys).2 (dbname ++ ".db") = .ok db2 ∧
      Tree.get db2 bucket = some b2 ∧
      (∀ k, k ∈ GoMap.keys keys → Tree.get b2 k = none) ∧
      (∀ k, k ∉ GoMap.keys keys → Tree.get b2 k = Tree.get b k) ∧
      (∀ other, other ≠ bucket → Tree.get db2 other = Tree.get db other) ∧
      (getFromDatabase (deleteFromDatabase disk dbname bucket keys).2 dbname bucket []).1.2.1
        = true ∧
      ((∀ e ∈ b, e.1 ∈ GoMap.keys keys) →
        (getFromDatabase (deleteFromDatabase disk dbname bucket keys).2 dbname bucket []).1
          = ("Got 0 keys in " ++ bucket, true, [])) := by
  rw [deleteFromDatabase_of_bucket disk dbname bucket keys db b hopen hb]
  have hget : Tree.get (Tree.put db bucket (deleteLoop b keys)) bucket
      = some (deleteLoop b keys) := Tree.get_put_same _ _ _
  refine ⟨Tree.put db bucket (deleteLoop b keys), deleteLoop b keys, Open_Close _ _ _, hget,
    fun k hk => get_deleteLoop_of_mem keys b k hk,
    fun k hk => get_deleteLoop_of_not_mem keys b k hk,
    fun other hother => Tree.get_put_ne db hother _, ?_, ?_⟩
  · rw [getFromDatabase_all _ dbname bucket _ _ (Open_Close _ _ _) hget]
  · intro hall
    rw [getFromDatabase_all _ dbname bucket _ _ (Open_Close _ _ _) hget]
    have hempty : deleteLoop b keys = [] := by
      rw [deleteLoop_eq_filter, List.filter_eq_nil_iff]
      intro e he
      simpa using hall e he
    rw [hempty]
    rfl

theorem deleteFromDatabase_frame_witness :
    Open [("shop.db", .data [("food", [("apple", "red"), ("pear", "green")])])]
        ("shop" ++ ".db") = .ok [("food", [("apple", "red"), ("pear", "green")])] ∧
      Tree.get ([("food", [("apple", "red"), ("pear", "green")])] : DB) "food"
        = some [("apple", "red"), ("pear", "green")] ∧
      (getFromDatabase
        (deleteFromDatabase [("shop.db", .data [("food", [("apple", "red"), ("pear", "green")])])]
          "shop" "food" [("apple", "")]).2 "shop" "food" []).1.2.1 = true :=
  ⟨by decide, by decide,
    by
      obtain ⟨_, _, _, _, _, _, _, h, _⟩ :=
        deleteFromDatabase_frame
          [("shop.db", .data [("food", [("apple", "red"), ("pear", "green")])])]
          "shop" "food" [("apple", "")] [("food", [("apple", "red"), ("pear", "green")])]
          [("apple", "red"), ("pear", "green")] (by decide) (by decide)
      exact h⟩

/-- C5: when the database opens, bucket B exists and the key set K is not empty,
`getFromDatabase` returns success true and a mapping that holds, under every key of K,
exactly what B holds under it (nothing when B does not hold the key) and nothing under
any other key; the message is "Got n keys in B" with n the number of entries returned. -/
theorem getFromDatabase_selective (disk : Disk) (dbname bucket : String) (keys : GoMap)
    (db : DB) (b : Bucket) (hopen : Open disk (dbname ++ ".db") = .ok db)
    (hb : Tree.get db bucket = some b) (hkeys : keys ≠ [])
    (hnodup : (GoMap.keys keys).Nodup) :
    ∃ res : GoMap,
      (getFromDatabase disk dbname bucket keys).1
        = ("Got " ++ toString res.length ++ " keys in " ++ bucket, true, res) ∧
      (GoMap.keys res).Nodup ∧
      (∀ k, k ∈ GoMap.keys keys → GoMap.get res k = Tree.get b k) ∧
      (∀ k, k ∉ GoMap.keys keys → GoMap.get res k = none) := by
  rw [getFromDatabase_keys disk dbname bucket keys db b hopen hb hkeys]
  have hres : getLoop b [] keys = selected b keys := by
    rw [getLoop_eq_selected b keys [] hnodup (fun _ _ => by simp [GoMap.keys])]
    rfl
  rw [hres]
  refine ⟨selected b keys, rfl, nodup_keys_selected b keys hnodup,
    fun k hk => get_selected_of_mem b keys k hk, fun k hk => ?_⟩
  apply GoMap.get_eq_none_of_not_mem
  exact fun hm => hk (mem_keys_selected b keys k hm)

theorem getFromDatabase_selective_witness :
    Open [("shop.db", .data [("food", [("apple", "red"), ("pear", "green")])])]
        ("shop" ++ ".db") = .ok [("food", [("apple", "red"), ("pear", "green")])] ∧
      Tree.get ([("food", [("apple", "red"), ("pear", "green")])] : DB) "food"
        = some [("apple", "red"), ("pear", "green")] ∧
      ([("plum", ""), ("pear", "")] : GoMap) ≠ [] ∧
      (GoMap.keys [("plum", ""), ("pear", "")]).Nodup ∧
      ∃ res : GoMap,
        (getFromDatabase [("shop.db", .data [("food", [("apple", "red"), ("pear", "green")])])]
            "shop" "food" [("plum", ""), ("pear", "")]).1
          = ("Got " ++ toString res.length ++ " keys in " ++ "food", true, res) ∧
        (GoMap.keys res).Nodup ∧
        (∀ k, k ∈ GoMap.keys [("plum", ""), ("pear", "")] →
          GoMap.get res k = Tree.get ([("apple", "red"), ("pear", "green")] : Bucket) k) ∧
        (∀ k, k ∉ GoMap.keys [("plum", ""), ("pear", "")] → GoMap.get res k = none) :=
  ⟨by decide, by decide, by decide, by decide,
    getFromDatabase_selective
      [("shop.db", .data [("food", [("apple", "red"), ("pear", "green")])])]
      "shop" "food" [("plum", ""), ("pear", "")]
      [("food", [("apple", "red"), ("pear", "green")])]
      [("apple", "red"), ("pear", "green")] (by decide) (by decide) (by decide) (by decide)⟩

/-- C1, as written, fails: the mapping with the single entry ("", "x") is written to a
bucket that does not exist; `b.Put` rejects the empty key, and the read of the whole
bucket that follows succeeds with an empty mapping, which is not the mapping written. -/
theorem update_then_get_all_counterexample :
    Open [] ("shop" ++ ".db") = .ok [] ∧
      Tree.get ([] : DB) "food" = none ∧
      (getFromDatabase (updateDatabase [] "shop" "food" [("", "x")]).2 "shop" "food" []).1
        = ("Got 0 keys in food", true, []) ∧
      ¬ List.Perm ([] : GoMap) [("", "x")] := by
  refine ⟨by decide, by decide, by decide, ?_⟩
  intro h
  exact absurd h.length_eq (by decide)

/-- C1, amended: when the database opens, the named bucket does not exist, its name is not
empty and `b.Put` accepts every entry of the mapping M, `updateDatabase` followed by
`getFromDatabase` with an empty key filter returns success true and a mapping with
exactly the entries of M: the same number of entries, and under every key what M holds. -/
theorem update_then_get_all (disk : Disk) (dbname bucket : String) (m : GoMap) (db : DB)
    (hopen : Open disk (dbname ++ ".db") = .ok db) (hfresh : Tree.get db bucket = none)
    (hname : bucket ≠ "") (hnodup : (GoMap.keys m).Nodup) (hacc : ∀ e ∈ m, Accepted e) :
    (updateDatabase disk dbname bucket m).1
        = .returned ("Updated " ++ toString m.length ++ " keys in " ++ bucket, true) ∧
      ∃ res : GoMap,
        (getFromDatabase (updateDatabase disk dbname bucket m).2 dbname bucket []).1
          = ("Got " ++ toString m.length ++ " keys in " ++ bucket, true, res) ∧
        res.Perm m ∧ ∀ k, GoMap.get res k = GoMap.get m k := by
  rw [updateDatabase_of_accepted disk dbname bucket m db hopen hname hacc]
  have hget : Tree.get (written db bucket m) bucket = some (putAll [] m) := by
    rw [get_written_same, hfresh]
    rfl
  have hperm : (putAll [] m).Perm m := by
    have h := putAll_perm m [] hnodup (fun _ _ => rfl)
    rwa [List.append_nil] at h
  have hnd : (GoMap.keys (putAll [] m)).Nodup :=
    (List.Perm.nodup_iff (hperm.map Prod.fst)).2 hnodup
  have hscan : scanAll [] (putAll [] m) = putAll [] m := by
    rw [scanAll_of_disjoint (putAll [] m) [] hnd (fun _ _ => by simp [GoMap.keys])]
    rfl
  refine ⟨rfl, putAll [] m, ?_, hperm, fun k => ?_⟩
  · rw [getFromDatabase_all _ dbname bucket _ _ (Open_Close _ _ _) hget, hscan,
      hperm.length_eq]
  · rw [GoMap.get_eq_tree_get (putAll [] m) k]
    cases hk : GoMap.get m k with
    | none => rw [get_putAll_of_get_none m [] k hk]; rfl
    | some v => exact get_putAll_of_get_some m [] k v hnodup hk

theorem update_then_get_all_witness :
    Open [] ("shop" ++ ".db") = .ok [] ∧
      Tree.get ([] : DB) "food" = none ∧
      "food" ≠ "" ∧
      (GoMap.keys [("pear", "green"), ("apple", "red")]).Nodup ∧
      (∀ e ∈ ([("pear", "green"), ("apple", "red")] : GoMap), Accepted e) ∧
      (updateDatabase [] "shop" "food" [("pear", "green"), ("apple", "red")]).1
        = .returned ("Updated 2 keys in food", true) :=
  ⟨by decide, by decide, by decide, by decide, by decide,
    (update_then_get_all [] "shop" "food" [("pear", "green"), ("apple", "red")] []
      (by decide) (by decide) (by decide) (by decide) (by decide)).1⟩

/-- C3, as written, fails for the empty key set: deleting no key from bucket "food" and
then reading with the same empty key set reads all of the bucket, which still holds its
entry. -/
theorem delete_then_get_counterexample :
    Open [("shop.db", .data [("food", [("apple", "red")])])] ("shop" ++ ".db")
        = .ok [("food", [("apple", "red")])] ∧
      Tree.get ([("food", [("apple", "red")])] : DB) "food" = some [("apple", "red")] ∧
      (deleteFromDatabase [("shop.db", .data [("food", [("apple", "red")])])] "shop" "food"
          []).1 = ("Deleted 0 keys in food", true) ∧
      (getFromDatabase
          (deleteFromDatabase [("shop.db", .data [("food", [("apple", "red")])])] "shop" "food"
            []).2 "shop" "food" []).1
        = ("Got 1 keys in food", true, [("apple", "red")]) ∧
      (getFromDatabase
          (deleteFromDatabase [("shop.db", .data [("food", [("apple", "red")])])] "shop" "food"
            []).2 "shop" "food" []).1.2.2 ≠ [] := by
  decide

/-- C3, amended: when the database opens and bucket B exists, `deleteFromDatabase` with a
key set K that is not empty, followed by `getFromDatabase` with the same K, returns
success true and an empty mapping; with the empty key set the read that follows is a
read of all of B and returns what a read of all of B returned before the delete. -/
theorem delete_then_get_same_keys (disk : Disk) (dbname bucket : String) (keys : GoMap)
    (db : DB) (b : Bucket) (hopen : Open disk (dbname ++ ".db") = .ok db)
    (hb : Tree.get db bucket = some b) :
    (keys ≠ [] →
        (getFromDatabase (deleteFromDatabase disk dbname bucket keys).2 dbname bucket keys).1
          = ("Got 0 keys in " ++ bucket, true, [])) ∧
      (keys = [] →
        (getFromDatabase (deleteFromDatabase disk dbname bucket keys).2 dbname bucket keys).1
          = (getFromDatabase disk dbname bucket []).1) := by
  rw [deleteFromDatabase_of_bucket disk dbname bucket keys db b hopen hb]
  have hget : Tree.get (Tree.put db bucket (deleteLoop b keys)) bucket
      = some (deleteLoop b keys) := Tree.get_put_same _ _ _
  constructor
  · intro hkeys
    rw [getFromDatabase_keys _ dbname bucket keys _ _ (Open_Close _ _ _) hget hkeys,
      getLoop_of_all_none (deleteLoop b keys) keys []
        (fun k hk => get_deleteLoop_of_mem keys b k hk)]
    rfl
  · intro hkeys
    subst hkeys
    rw [getFromDatabase_all _ dbname bucket _ _ (Open_Close _ _ _) hget,
      getFromDatabase_all disk dbname bucket db b hopen hb]
    rfl

theorem delete_then_get_same_keys_witness :
    Open [("shop.db", .data [("food", [("apple", "red"), ("pear", "green")])])]
        ("shop" ++ ".db") = .ok [("food", [("apple", "red"), ("pear", "green")])] ∧
      Tree.get ([("food", [("apple", "red"), ("pear", "green")])] : DB) "food"
        = some [("apple", "red"), ("pear", "green")] ∧
      ([("apple", ""), ("plum", "")] : GoMap) ≠ [] ∧
      (getFromDatabase
          (deleteFromDatabase
            [("shop.db", .data [("food", [("apple", "red"), ("pear", "green")])])]
            "shop" "food" [("apple", ""), ("plum", "")]).2
          "shop" "food" [("apple", ""), ("plum", "")]).1
        = ("Got 0 keys in " ++ "food", true, []) :=
  ⟨by decide, by decide, by decide,
    (delete_then_get_same_keys
      [("shop.db", .data [("food", [("apple", "red"), ("pear", "green")])])]
      "shop" "food" [("apple", ""), ("plum", "")]
      [("food", [("apple", "red"), ("pear", "green")])]
      [("apple", "red"), ("pear", "green")] (by decide) (by decide)).1 (by decide)⟩

/-- C2: the code at a batch with an entry that `b.Put` rejects.  Bucket "food" holds
pear=green and the batch is apple=red together with an entry under the empty key.
`b.Put` fails on the empty key, yet in either iteration order `updateDatabase` returns
success true with "Updated 2 keys in food"; when apple=red is visited first it is
committed, and in either order the transaction is committed, not rolled back. -/
theorem updateDatabase_put_failure_commits :
    Put [("pear", "green")] "" "x" = .error "key required" ∧
      updateDatabase [("shop.db", .data [("food", [("pear", "green")])])] "shop" "food"
          [("apple", "red"), ("", "x")]
        = (.returned ("Updated 2 keys in food", true),
            [("shop.db", .data [("food", [("apple", "red"), ("pear", "green")])])]) ∧
      updateDatabase [("shop.db", .data [("food", [("pear", "green")])])] "shop" "food"
          [("", "x"), ("apple", "red")]
        = (.returned ("Updated 2 keys in food", true),
            [("shop.db", .data [("food", [("pear", "green")])])]) ∧
      updateDatabase [] "shop" "food" [("", "x")]
        = (.returned ("Updated 1 keys in food", true), [("shop.db", .data [("food", [])])]) := by
  decide

/-- C8: the code at a file that `bolt.Open` cannot open.  `getFromDatabase` and
`deleteFromDatabase` return the error as a message with success false, while
`updateDatabase` does not return: it logs the error and ends the process. -/
theorem open_failure_outcomes :
    Open [("shop.db", .invalid "invalid database")] ("shop" ++ ".db")
        = .error "invalid database" ∧
      updateDatabase [("shop.db", .invalid "invalid database")] "shop" "food"
          [("apple", "red")]
        = (.fatal "invalid database", [("shop.db", .invalid "invalid database")]) ∧
      (getFromDatabase [("shop.db", .invalid "invalid database")] "shop" "food" []).1
        = ("Error: 'invalid database'", false, []) ∧
      (deleteFromDatabase [("shop.db", .invalid "invalid database")] "shop" "food"
          [("apple", "")]).1
        = ("Error: 'invalid database'", false) := by
  decide

end BoltServer
